import Mathlib

/-
Verification of the f2 reverse proxy / micro-orchestrator control plane.

The definitions below are a shallow embedding of the Rust sources:
  * `src/service_registry.rs`  — `ServiceRegistry`, `compute_path_prefix_match`,
    `find_downstreams` and the container bookkeeping operations;
  * `src/config.rs`            — `Service`, `Config` and `Config::diff`;
  * `src/reconciler.rs`        — `start_multiple_containers`, `handle_alteration`;
  * `src/load_balancer/proxy.rs` — `check_for_admin_commands`,
    `is_admin_request_authorised` and the backend selection of `handle_request`;
  * `src/docker/api.rs`        — `StartedContainerDetails`, `decrypt_content`,
    `find_replaceable_segments`;
  * `src/crypto.rs`            — the shape of `decrypt` (base64 then RSA).

Rust strings are modelled as lists of characters (`Str`) where length
arithmetic matters (request paths, path prefixes, header values, blob
contents) and as Lean `String` where only equality is used (service names,
hosts, image names, tags).  `HashMap` is modelled as an association list
(`mapLookup` / `mapInsert` / `mapRemove`); `IndexSet` as an insertion-ordered
duplicate-free list (`indexSetInsert`).
-/

namespace F2

/-- Rust `String` / `&str`, modelled as a list of characters. -/
abbrev Str := List Char

/-- Helper turning a Lean string literal into the character-list model. -/
def str (s : String) : Str := s.toList

/-- `ContainerId(pub String)` from `src/docker/models.rs`. -/
structure ContainerId where
  val : String
deriving DecidableEq, Repr

/-- `std::net::Ipv4Addr`, modelled as four octets. -/
structure Ipv4Addr where
  o1 : Nat
  o2 : Nat
  o3 : Nat
  o4 : Nat
deriving DecidableEq, Repr

/-- `StartedContainerDetails` from `src/docker/api.rs` (lines 15-19).
The Rust struct derives `Eq, PartialEq, Hash`, which is field-wise over
BOTH `id` and `addr`; the derived `DecidableEq` here matches that. -/
structure StartedContainerDetails where
  id : ContainerId
  addr : Ipv4Addr
deriving DecidableEq, Repr

/-- `indexmap::IndexSet::insert`: appends at the end unless an equal element
is already present (equality is the element type's derived equality). -/
def indexSetInsert (s : List StartedContainerDetails) (d : StartedContainerDetails) :
    List StartedContainerDetails :=
  if d ∈ s then s else s ++ [d]

/-- `HashMap` lookup (`HashMap::get`), on the association-list model. -/
def mapLookup (k : String) : List (String × β) → Option β
  | [] => none
  | e :: rest => if e.1 = k then some e.2 else mapLookup k rest

/-- `HashMap::insert`: replace the value if the key is present, else add the
entry. -/
def mapInsert (k : String) (v : β) : List (String × β) → List (String × β)
  | [] => [(k, v)]
  | e :: rest => if e.1 = k then (k, v) :: rest else e :: mapInsert k v rest

/-- `HashMap::remove` (the value is discarded by the callers modelled here). -/
def mapRemove (k : String) : List (String × β) → List (String × β)
  | [] => []
  | e :: rest => if e.1 = k then mapRemove k rest else e :: mapRemove k rest

theorem mapLookup_insert_self (k : String) (v : β) (m : List (String × β)) :
    mapLookup k (mapInsert k v m) = some v := by
  induction m with
  | nil => simp [mapInsert, mapLookup]
  | cons e rest ih =>
    by_cases h : e.1 = k
    · simp [mapInsert, h, mapLookup]
    · simp [mapInsert, h, mapLookup, ih]

theorem mapLookup_insert_ne (k k2 : String) (v : β) (m : List (String × β))
    (h : k2 ≠ k) : mapLookup k2 (mapInsert k v m) = mapLookup k2 m := by
  have hk : ¬ (k = k2) := fun he => h he.symm
  induction m with
  | nil => simp [mapInsert, mapLookup, hk]
  | cons e rest ih =>
    by_cases he : e.1 = k
    · have h2 : ¬ (e.1 = k2) := by rw [he]; exact hk
      simp only [mapInsert, if_pos he, mapLookup, if_neg hk, if_neg h2]
    · simp only [mapInsert, if_neg he, mapLookup, ih]

theorem mapLookup_remove_self (k : String) (m : List (String × β)) :
    mapLookup k (mapRemove k m) = none := by
  induction m with
  | nil => simp [mapRemove, mapLookup]
  | cons e rest ih =>
    by_cases h : e.1 = k
    · simp [mapRemove, h, ih]
    · simp [mapRemove, h, mapLookup, ih]

theorem mapLookup_remove_ne (k k2 : String) (m : List (String × β)) (h : k2 ≠ k) :
    mapLookup k2 (mapRemove k m) = mapLookup k2 m := by
  have hk : ¬ (k = k2) := fun he => h he.symm
  induction m with
  | nil => simp [mapRemove]
  | cons e rest ih =>
    by_cases he : e.1 = k
    · have h2 : ¬ (e.1 = k2) := by rw [he]; exact hk
      simp only [mapRemove, if_pos he, mapLookup, if_neg h2, ih]
    · simp only [mapRemove, if_neg he, mapLookup, ih]

theorem mapInsert_eq_self (k : String) (v : β) (m : List (String × β))
    (h : mapLookup k m = some v) : mapInsert k v m = m := by
  induction m with
  | nil => simp [mapLookup] at h
  | cons e rest ih =>
    by_cases he : e.1 = k
    · simp only [mapLookup, if_pos he, Option.some.injEq] at h
      have h2 : (k, v) = e := by
        cases e
        simp only [Prod.mk.injEq]
        exact ⟨he.symm, h.symm⟩
      simp [mapInsert, if_pos he, h2]
    · simp only [mapLookup, if_neg he] at h
      simp [mapInsert, he, ih h]

/-- The `Service` struct of `src/config.rs` (lines 165-174).  The derived
equality is field-wise, matching the derived `PartialEq`; the `environment`
map is modelled as an association list. -/
structure Service where
  image : String
  tag : String
  port : Nat
  replicas : Nat
  host : String
  pathPrefix : Option Str
  environment : Option (List (String × String))
deriving DecidableEq, Repr

/-- The `ServiceRegistry` struct of `src/service_registry.rs` (lines 18-22),
generic over the stored definition type (the registry code never inspects
the definition except in `find_downstreams`, which is stated on
`ServiceRegistry Service`). -/
structure ServiceRegistry (δ : Type) where
  definitions : List (String × δ)
  containers : List (String × List StartedContainerDetails)
deriving DecidableEq, Repr

namespace ServiceRegistry

/-- `ServiceRegistry::new` / `Default::default`. -/
def empty : ServiceRegistry δ := ⟨[], []⟩

/-- `ServiceRegistry::define`: insert-or-replace into `definitions`. -/
def define (r : ServiceRegistry δ) (service : String) (definition : δ) :
    ServiceRegistry δ :=
  { r with definitions := mapInsert service definition r.definitions }

/-- `ServiceRegistry::undefine`: `self.definitions.remove(service)` —
it touches only `definitions`, never `containers`. -/
def undefine (r : ServiceRegistry δ) (service : String) : ServiceRegistry δ :=
  { r with definitions := mapRemove service r.definitions }

/-- `ServiceRegistry::get_running_containers`. -/
def get_running_containers (r : ServiceRegistry δ) (service : String) :
    Option (List StartedContainerDetails) :=
  mapLookup service r.containers

/-- `ServiceRegistry::add_container`:
`self.containers.entry(service).or_default().insert(details)`. -/
def add_container (r : ServiceRegistry δ) (service : String)
    (details : StartedContainerDetails) : ServiceRegistry δ :=
  let cur := (mapLookup service r.containers).getD []
  { r with containers := mapInsert service (indexSetInsert cur details) r.containers }

/-- `ServiceRegistry::remove_all_containers`. -/
def remove_all_containers (r : ServiceRegistry δ) (service : String) :
    ServiceRegistry δ :=
  { r with containers := mapRemove service r.containers }

/-- `ServiceRegistry::remove_container_by_id`: `retain` on the entry if it
exists; note the entry stays in the map even when it becomes empty. -/
def remove_container_by_id (r : ServiceRegistry δ) (service : String)
    (id : ContainerId) : ServiceRegistry δ :=
  match mapLookup service r.containers with
  | none => r
  | some cs =>
      let kept := cs.filter (fun c => c.id ≠ id)
      { r with containers := mapInsert service kept r.containers }

end ServiceRegistry

/-- Claim C1 (corrected).  `undefine` removes the definition for the name but
leaves the `containers` map completely untouched, and `add_container` records
a backend set for a name whether or not it is defined; the
backends-imply-definition invariant is not maintained by the registry
operations. -/
theorem c1_undefine_leaves_backends (δ : Type) (r : ServiceRegistry δ)
    (name : String) :
    mapLookup name (ServiceRegistry.undefine r name).definitions = none ∧
    (ServiceRegistry.undefine r name).containers = r.containers ∧
    ∀ d : StartedContainerDetails,
      (ServiceRegistry.get_running_containers
        (ServiceRegistry.add_container r name d) name).isSome := by
  refine ⟨mapLookup_remove_self name r.definitions, rfl, fun d => ?_⟩
  simp [ServiceRegistry.add_container, ServiceRegistry.get_running_containers,
    mapLookup_insert_self]

/-- Claim C1, counterexample to the claim as stated: starting from the empty
registry, after `define`, `add_container`, `undefine` the name still has a
recorded backend set but no definition, so `undefine` did not remove the
backend set and the invariant of the claim fails. -/
theorem c1_counterexample :
    let svc : Service :=
      ⟨"img", "1", 80, 1, "example.com", none, none⟩
    let d : StartedContainerDetails := ⟨⟨"cid1"⟩, ⟨127, 0, 0, 1⟩⟩
    let r :=
      ServiceRegistry.undefine
        (ServiceRegistry.add_container
          (ServiceRegistry.define (ServiceRegistry.empty (δ := Service)) "api" svc)
          "api" d)
        "api"
    ServiceRegistry.get_running_containers r "api" = some [d] ∧
    mapLookup "api" r.definitions = none := by
  constructor <;> rfl

/-! ## Routing: `compute_path_prefix_match` and `find_downstreams` -/

/-- `usize::MAX` on the 64-bit targets the program runs on. -/
def USIZE_MAX : Nat := 2 ^ 64 - 1

/-- Rust `str::strip_prefix` (`s.strip_prefix(p)`): `some` of the rest of the
string when `p` is a prefix of `s`, `none` otherwise. -/
def rustStripPrefix (s p : Str) : Option Str :=
  if p.isPrefixOf s then some (s.drop p.length) else none

/-- `compute_path_prefix_match` from `src/service_registry.rs` (lines 9-15):
`path.len()` when there is no prefix, otherwise
`path.strip_prefix(prefix).map_or(usize::MAX, str::len)`. -/
def compute_path_prefix_match (path : Str) (pfx : Option Str) : Nat :=
  match pfx with
  | none => path.length
  | some p => (rustStripPrefix path p).elim USIZE_MAX List.length

/-- Rust `Iterator::min_by_key`: the first element attaining the minimal key
(`none` on an empty iterator). -/
def minByKey (f : α → Nat) : List α → Option α
  | [] => none
  | x :: xs =>
    match minByKey f xs with
    | none => some x
    | some y => if f x ≤ f y then some x else some y

theorem minByKey_eq_none_iff (f : α → Nat) (l : List α) :
    minByKey f l = none ↔ l = [] := by
  cases l with
  | nil => simp [minByKey]
  | cons a rest =>
    simp only [minByKey, ne_eq, reduceCtorEq, iff_false]
    cases hr : minByKey f rest with
    | none => simp
    | some y => by_cases hle : f a ≤ f y <;> simp [hle]

theorem minByKey_mem (f : α → Nat) (l : List α) (x : α)
    (h : minByKey f l = some x) : x ∈ l := by
  induction l generalizing x with
  | nil => simp [minByKey] at h
  | cons a rest ih =>
    cases hr : minByKey f rest with
    | none =>
      simp only [minByKey, hr] at h
      cases h
      exact List.mem_cons_self _ _
    | some y =>
      simp only [minByKey, hr] at h
      by_cases hle : f a ≤ f y
      · rw [if_pos hle] at h
        cases h
        exact List.mem_cons_self _ _
      · rw [if_neg hle] at h
        cases h
        exact List.mem_cons_of_mem a (ih _ hr)

theorem minByKey_le (f : α → Nat) (l : List α) (x : α)
    (h : minByKey f l = some x) : ∀ y ∈ l, f x ≤ f y := by
  induction l generalizing x with
  | nil => simp [minByKey] at h
  | cons a rest ih =>
    intro y hy
    cases hr : minByKey f rest with
    | none =>
      simp only [minByKey, hr] at h
      cases h
      have hrest : rest = [] := (minByKey_eq_none_iff f rest).mp hr
      cases List.mem_cons.mp hy with
      | inl he => rw [he]
      | inr he => rw [hrest] at he; cases he
    | some z =>
      simp only [minByKey, hr] at h
      by_cases hle : f a ≤ f z
      · rw [if_pos hle] at h
        cases h
        cases List.mem_cons.mp hy with
        | inl he => rw [he]
        | inr he => exact le_trans hle (ih _ hr y he)
      · rw [if_neg hle] at h
        cases h
        cases List.mem_cons.mp hy with
        | inl he => rw [he]; exact le_of_lt (lt_of_not_le hle)
        | inr he => exact ih _ hr y he

theorem minByKey_isSome_iff (f : α → Nat) (l : List α) :
    (minByKey f l).isSome ↔ l ≠ [] := by
  rw [Option.isSome_iff_ne_none]
  constructor
  · intro h hl
    exact h ((minByKey_eq_none_iff f l).mpr hl)
  · intro h hn
    exact h ((minByKey_eq_none_iff f l).mp hn)

/-- The selection step of `ServiceRegistry::find_downstreams`
(`src/service_registry.rs` lines 71-74): filter the definitions by host, then
`min_by_key` on the path-prefix-match length. -/
def selected_service (r : ServiceRegistry Service) (host : String) (path : Str) :
    Option (String × Service) :=
  minByKey (fun e => compute_path_prefix_match path e.2.pathPrefix)
    (r.definitions.filter (fun e => e.2.host = host))

/-- `ServiceRegistry::find_downstreams` (lines 66-79): the selected entry is
fed to `get_running_containers`; a `None` there maps to `None`, a present
(possibly empty) set to `Some (set, port)`. -/
def find_downstreams (r : ServiceRegistry Service) (host : String) (path : Str) :
    Option (List StartedContainerDetails × Nat) :=
  (selected_service r host path).bind fun e =>
    (ServiceRegistry.get_running_containers r e.1).map fun ds => (ds, e.2.port)

/-- Claim C2 (corrected).  `find_downstreams` returns `Some` iff at least one
defined service has the request host AND the containers map has an ENTRY for
the selected service — the entry may be an empty set, because
`remove_container_by_id` retains an empty entry; emptiness of the winner's
backend set does not force `None`. -/
theorem c2_find_downstreams_some_iff (r : ServiceRegistry Service) (host : String)
    (path : Str) :
    ((find_downstreams r host path).isSome ↔
      ∃ e, selected_service r host path = some e ∧
        (ServiceRegistry.get_running_containers r e.1).isSome) ∧
    ((selected_service r host path).isSome ↔ ∃ e ∈ r.definitions, e.2.host = host) := by
  constructor
  · unfold find_downstreams
    cases hsel : selected_service r host path with
    | none => simp
    | some e =>
      cases hc : ServiceRegistry.get_running_containers r e.1 with
      | none => simp [hc]
      | some ds => simp [hc]
  · rw [selected_service, minByKey_isSome_iff]
    constructor
    · intro hne
      rcases List.exists_mem_of_ne_nil _ hne with ⟨e, he⟩
      rcases List.mem_filter.mp he with ⟨hmem, hh⟩
      exact ⟨e, hmem, of_decide_eq_true hh⟩
    · rintro ⟨e, hmem, hh⟩ hnil
      have : e ∈ r.definitions.filter (fun e => e.2.host = host) :=
        List.mem_filter.mpr ⟨hmem, decide_eq_true hh⟩
      rw [hnil] at this
      cases this

/-- Claim C2, counterexample to the claim as stated: after
`remove_container_by_id` removes the last backend, the containers entry is
retained empty and `find_downstreams` returns `Some` with an empty set (the
claim demands `None` here). -/
theorem c2_counterexample :
    let svc : Service := ⟨"img", "1", 8080, 1, "example.com", none, none⟩
    let d : StartedContainerDetails := ⟨⟨"cid1"⟩, ⟨10, 0, 0, 2⟩⟩
    let r :=
      ServiceRegistry.remove_container_by_id
        (ServiceRegistry.add_container
          (ServiceRegistry.define (ServiceRegistry.empty (δ := Service)) "api" svc)
          "api" d)
        "api" ⟨"cid1"⟩
    find_downstreams r "example.com" (str "/x") = some ([], 8080) := by
  decide

/-- Claim C3 (confirmed).  The selected entry is a defined service with the
request host minimising `compute_path_prefix_match`, whose value is
`len(path)` for an absent prefix, `len(path) - len(prefix)` for a matching
prefix and `usize::MAX` for a present-but-non-matching prefix; the latter
loses to an absent prefix whenever the path is shorter than `usize::MAX`. -/
theorem c3_longest_matching_chosen (r : ServiceRegistry Service) (host : String)
    (path : Str) (e : String × Service)
    (hsel : selected_service r host path = some e) :
    e ∈ r.definitions ∧ e.2.host = host ∧
    (∀ e2 ∈ r.definitions, e2.2.host = host →
      compute_path_prefix_match path e.2.pathPrefix ≤
        compute_path_prefix_match path e2.2.pathPrefix) ∧
    (∀ q : Str, compute_path_prefix_match q none = q.length) ∧
    (∀ q p : Str, p <+: q →
      compute_path_prefix_match q (some p) = q.length - p.length) ∧
    (∀ q p : Str, ¬ p <+: q →
      compute_path_prefix_match q (some p) = USIZE_MAX) ∧
    (∀ q p : Str, ¬ p <+: q → q.length < USIZE_MAX →
      compute_path_prefix_match q none < compute_path_prefix_match q (some p)) := by
  have hmem := minByKey_mem _ _ _ hsel
  rcases List.mem_filter.mp hmem with ⟨hdef, hhost⟩
  have heq : ∀ q p : Str, p <+: q →
      compute_path_prefix_match q (some p) = q.length - p.length := by
    intro q p hp
    have : p.isPrefixOf q = true := List.isPrefixOf_iff_prefix.mpr hp
    simp [compute_path_prefix_match, rustStripPrefix, this]
  have hneq : ∀ q p : Str, ¬ p <+: q →
      compute_path_prefix_match q (some p) = USIZE_MAX := by
    intro q p hp
    have : ¬ (p.isPrefixOf q = true) := fun h => hp (List.isPrefixOf_iff_prefix.mp h)
    simp [compute_path_prefix_match, rustStripPrefix, this]
  refine ⟨hdef, of_decide_eq_true hhost, ?_, fun q => rfl, heq, hneq, ?_⟩
  · intro e2 hmem2 hhost2
    exact minByKey_le _ _ _ hsel e2
      (List.mem_filter.mpr ⟨hmem2, decide_eq_true hhost2⟩)
  · intro q p hp hlt
    rw [hneq q p hp]
    exact hlt

/-- Concrete registry for the C3 witness: spec scenario 3, a `frontend` with
no prefix and a `backend` with prefixes on the same host. -/
def c3Registry : ServiceRegistry Service :=
  ServiceRegistry.define
    (ServiceRegistry.define (ServiceRegistry.empty (δ := Service)) "frontend"
      ⟨"org/frontend", "1", 80, 1, "example.com", none, none⟩)
    "backend" ⟨"org/backend", "1", 5000, 1, "example.com", some (str "/api"), none⟩

/-- The backend definition selected in the C3 witness. -/
def c3Backend : String × Service :=
  ("backend", ⟨"org/backend", "1", 5000, 1, "example.com", some (str "/api"), none⟩)

/-- Witness for C3: on path `/api/health` the `backend` entry is selected and
the theorem applies to it. -/
theorem c3_witness :
    c3Backend ∈ c3Registry.definitions ∧ c3Backend.2.host = "example.com" ∧
    (∀ e2 ∈ c3Registry.definitions, e2.2.host = "example.com" →
      compute_path_prefix_match (str "/api/health") c3Backend.2.pathPrefix ≤
        compute_path_prefix_match (str "/api/health") e2.2.pathPrefix) ∧
    (∀ q : Str, compute_path_prefix_match q none = q.length) ∧
    (∀ q p : Str, p <+: q →
      compute_path_prefix_match q (some p) = q.length - p.length) ∧
    (∀ q p : Str, ¬ p <+: q →
      compute_path_prefix_match q (some p) = USIZE_MAX) ∧
    (∀ q p : Str, ¬ p <+: q → q.length < USIZE_MAX →
      compute_path_prefix_match q none < compute_path_prefix_match q (some p)) :=
  c3_longest_matching_chosen c3Registry "example.com" (str "/api/health") c3Backend
    (by decide)

/-- The backend selection of `handle_request`
(`src/load_balancer/proxy.rs` lines 57-66): draw a number, reduce it modulo
the set size, and `get_index`. -/
def select_downstream (downstreams : List StartedContainerDetails) (next : Nat) :
    Option StartedContainerDetails :=
  downstreams.get? (next % downstreams.length)

/-- Claim C10 (confirmed).  When `find_downstreams` produced a non-empty
backend set, the modulo is over a positive size and `get_index` always
returns an element of the set, for every random draw. -/
theorem c10_selection_total (r : ServiceRegistry Service) (host : String)
    (path : Str) (ds : List StartedContainerDetails) (port : Nat)
    (_hfd : find_downstreams r host path = some (ds, port)) (hne : ds ≠ []) :
    ∀ next : Nat, 0 < ds.length ∧
      ∃ d, select_downstream ds next = some d ∧ d ∈ ds := by
  intro next
  have hpos : 0 < ds.length := List.length_pos.mpr hne
  have hlt : next % ds.length < ds.length := Nat.mod_lt next hpos
  refine ⟨hpos, ds.get ⟨next % ds.length, hlt⟩, ?_, List.get_mem ds _ hlt⟩
  simp [select_downstream, List.get?_eq_get hlt]

/-- Concrete registry for the C10 witness: one defined service with two
backends. -/
def c10Registry : ServiceRegistry Service :=
  ServiceRegistry.add_container
    (ServiceRegistry.add_container
      (ServiceRegistry.define (ServiceRegistry.empty (δ := Service)) "api"
        ⟨"img", "1", 9000, 2, "api.example.com", none, none⟩)
      "api" ⟨⟨"cid1"⟩, ⟨10, 0, 0, 2⟩⟩)
    "api" ⟨⟨"cid2"⟩, ⟨10, 0, 0, 3⟩⟩

/-- Witness for C10 at a concrete draw. -/
theorem c10_witness :
    0 < ([⟨⟨"cid1"⟩, ⟨10, 0, 0, 2⟩⟩, ⟨⟨"cid2"⟩, ⟨10, 0, 0, 3⟩⟩] :
        List StartedContainerDetails).length ∧
    ∃ d, select_downstream
        [⟨⟨"cid1"⟩, ⟨10, 0, 0, 2⟩⟩, ⟨⟨"cid2"⟩, ⟨10, 0, 0, 3⟩⟩] 7 = some d ∧
      d ∈ ([⟨⟨"cid1"⟩, ⟨10, 0, 0, 2⟩⟩, ⟨⟨"cid2"⟩, ⟨10, 0, 0, 3⟩⟩] :
        List StartedContainerDetails) :=
  c10_selection_total c10Registry "api.example.com" (str "/")
    [⟨⟨"cid1"⟩, ⟨10, 0, 0, 2⟩⟩, ⟨⟨"cid2"⟩, ⟨10, 0, 0, 3⟩⟩] 9000
    (by decide) (by decide) 7

/-! ## Configuration diffing: `Config::diff` -/

/-- The `Diff` enum of `src/config.rs` (lines 12-25). -/
inductive Diff
  | Alteration (name : String) (new_definition : Service)
  | Addition (name : String) (definition : Service)
  | Removal (name : String)
deriving DecidableEq, Repr

/-- The name a change applies to. -/
def diffServiceName : Diff → String
  | Diff.Alteration n _ => n
  | Diff.Addition n _ => n
  | Diff.Removal n => n

/-- The `Config` struct of `src/config.rs` (lines 27-33); `Config::diff`
reads only `services`, so the unrelated fields (`alb`, `secrets`,
`auxillary_services`) are not modelled. -/
structure Config where
  services : List (String × Service)
deriving DecidableEq, Repr

/-- The body of the `Config::diff` loops (lines 72-96): removals and
alterations from iterating `self.services`, then additions from iterating
`right.services`. -/
def Config.diffList (self right : Config) : List Diff :=
  (self.services.filterMap (fun e =>
    match mapLookup e.1 right.services with
    | some definition =>
        if e.2 ≠ definition then some (Diff.Alteration e.1 definition) else none
    | none => some (Diff.Removal e.1))) ++
  (right.services.filterMap (fun e =>
    if (mapLookup e.1 self.services).isNone then some (Diff.Addition e.1 e.2)
    else none))

/-- `Config::diff` (lines 69-102): `None` when no change was collected,
`Some` of the collected changes otherwise (lines 98-101). -/
def Config.diff (self right : Config) : Option (List Diff) :=
  match (Config.diffList self right).length with
  | 0 => none
  | _ + 1 => some (Config.diffList self right)

/-- Keys of an association list (a `HashMap` has them pairwise distinct). -/
def keys (l : List (String × β)) : List String := l.map Prod.fst

theorem mapLookup_eq_none_iff (k : String) (l : List (String × β)) :
    mapLookup k l = none ↔ k ∉ keys l := by
  induction l with
  | nil => simp [mapLookup, keys]
  | cons e rest ih =>
    by_cases he : e.1 = k
    · simp [mapLookup, if_pos he, keys, he]
    · simp only [mapLookup, if_neg he, keys, List.map_cons, List.mem_cons, ih, keys]
      constructor
      · intro h hh
        cases hh with
        | inl hh => exact he hh.symm
        | inr hh => exact h hh
      · intro h hh
        exact h (Or.inr hh)

theorem mapLookup_of_mem_nodup (k : String) (v : β) (l : List (String × β))
    (hnd : (keys l).Nodup) (hmem : (k, v) ∈ l) : mapLookup k l = some v := by
  induction l with
  | nil => cases hmem
  | cons e rest ih =>
    rcases List.nodup_cons.mp hnd with ⟨hk, hnd2⟩
    cases List.mem_cons.mp hmem with
    | inl he =>
      rw [← he]
      simp [mapLookup]
    | inr he =>
      have hne : e.1 ≠ k := by
        intro hek
        apply hk
        rw [hek]
        exact List.mem_map.mpr ⟨(k, v), he, rfl⟩
      simp only [mapLookup, if_neg hne]
      exact ih hnd2 he

/-- Predicates picking the changes of one kind for one name. -/
def altersFor (name : String) : Diff → Bool
  | Diff.Alteration n _ => n = name
  | _ => false

/-- See `altersFor`. -/
def removesFor (name : String) : Diff → Bool
  | Diff.Removal n => n = name
  | _ => false

/-- See `altersFor`. -/
def addsFor (name : String) : Diff → Bool
  | Diff.Addition n _ => n = name
  | _ => false

theorem altersFor_name (name : String) (d : Diff) (h : altersFor name d = true) :
    diffServiceName d = name := by
  cases d with
  | Alteration n s =>
    simp only [altersFor, decide_eq_true_eq] at h
    simp [diffServiceName, h]
  | Addition n s => simp [altersFor] at h
  | Removal n => simp [altersFor] at h

theorem removesFor_name (name : String) (d : Diff) (h : removesFor name d = true) :
    diffServiceName d = name := by
  cases d with
  | Alteration n s => simp [removesFor] at h
  | Addition n s => simp [removesFor] at h
  | Removal n =>
    simp only [removesFor, decide_eq_true_eq] at h
    simp [diffServiceName, h]

theorem addsFor_name (name : String) (d : Diff) (h : addsFor name d = true) :
    diffServiceName d = name := by
  cases d with
  | Alteration n s => simp [addsFor] at h
  | Addition n s =>
    simp only [addsFor, decide_eq_true_eq] at h
    simp [diffServiceName, h]
  | Removal n => simp [addsFor] at h

theorem filterMap_filter_eq_nil (g : String × Service → Option Diff)
    (p : Diff → Bool) (name : String) (l : List (String × Service))
    (hg : ∀ e d, g e = some d → diffServiceName d = e.1)
    (hp : ∀ d, p d = true → diffServiceName d = name)
    (hnm : name ∉ keys l) :
    (l.filterMap g).filter p = [] := by
  induction l with
  | nil => rfl
  | cons e rest ih =>
    have hnm2 : name ∉ keys rest := by
      intro h
      exact hnm (List.mem_cons_of_mem _ h)
    have hne : e.1 ≠ name := by
      intro h
      apply hnm
      rw [← h]
      exact List.mem_cons_self _ _
    rw [List.filterMap_cons]
    cases hge : g e with
    | none => exact ih hnm2
    | some d =>
      have hd : diffServiceName d = e.1 := hg e d hge
      have hpd : p d = false := by
        cases hpc : p d with
        | false => rfl
        | true => exact absurd (hd ▸ hp d hpc) hne
      rw [List.filter_cons_of_neg (by simp [hpd])]
      exact ih hnm2

theorem filterMap_filter_of_lookup (g : String × Service → Option Diff)
    (p : Diff → Bool) (name : String) (v : Service) (l : List (String × Service))
    (hg : ∀ e d, g e = some d → diffServiceName d = e.1)
    (hp : ∀ d, p d = true → diffServiceName d = name)
    (hnd : (keys l).Nodup) (hlk : mapLookup name l = some v) :
    (l.filterMap g).filter p = (g (name, v)).toList.filter p := by
  induction l with
  | nil => simp [mapLookup] at hlk
  | cons e rest ih =>
    rcases List.nodup_cons.mp hnd with ⟨hk, hnd2⟩
    by_cases he : e.1 = name
    · simp only [mapLookup, if_pos he, Option.some.injEq] at hlk
      have hnm2 : name ∉ keys rest := he ▸ hk
      have hev : e = (name, v) := by
        cases e
        simp only [Prod.mk.injEq]
        exact ⟨he, hlk⟩
      rw [List.filterMap_cons, hev]
      cases hge : g (name, v) with
      | none =>
        rw [filterMap_filter_eq_nil g p name rest hg hp hnm2]
        simp [hge]
      | some d =>
        rw [List.filter_cons]
        rw [filterMap_filter_eq_nil g p name rest hg hp hnm2]
        simp [hge, List.filter_cons]
    · simp only [mapLookup, if_neg he] at hlk
      rw [List.filterMap_cons]
      cases hge : g e with
      | none => exact ih hnd2 hlk
      | some d =>
        have hd : diffServiceName d = e.1 := hg e d hge
        have hpd : p d = false := by
          cases hpc : p d with
          | false => rfl
          | true =>
            exact absurd (hp d hpc) (by rw [hd]; exact he)
        rw [List.filter_cons_of_neg (by simp [hpd])]
        exact ih hnd2 hlk

theorem filter_filterMap_none (g : String × Service → Option Diff)
    (p : Diff → Bool) (l : List (String × Service))
    (h : ∀ e d, g e = some d → p d = false) :
    (l.filterMap g).filter p = [] := by
  induction l with
  | nil => rfl
  | cons e rest ih =>
    rw [List.filterMap_cons]
    cases hge : g e with
    | none => exact ih
    | some d =>
      rw [List.filter_cons_of_neg (by simp [h e d hge])]
      exact ih

/-- The generator of removals and alterations in `Config::diff`. -/
def diffGen1 (right : Config) (e : String × Service) : Option Diff :=
  match mapLookup e.1 right.services with
  | some definition =>
      if e.2 ≠ definition then some (Diff.Alteration e.1 definition) else none
  | none => some (Diff.Removal e.1)

/-- The generator of additions in `Config::diff`. -/
def diffGen2 (self : Config) (e : String × Service) : Option Diff :=
  if (mapLookup e.1 self.services).isNone then some (Diff.Addition e.1 e.2)
  else none

theorem diffList_eq (self right : Config) :
    Config.diffList self right =
      self.services.filterMap (diffGen1 right) ++
        right.services.filterMap (diffGen2 self) := rfl

theorem diffGen1_name (right : Config) (e : String × Service) (d : Diff)
    (h : diffGen1 right e = some d) : diffServiceName d = e.1 := by
  unfold diffGen1 at h
  cases hlk : mapLookup e.1 right.services with
  | some definition =>
    simp only [hlk] at h
    by_cases hne : e.2 ≠ definition
    · rw [if_pos hne] at h
      cases h
      rfl
    · rw [if_neg hne] at h
      cases h
  | none =>
    simp only [hlk] at h
    cases h
    rfl

theorem diffGen2_name (self : Config) (e : String × Service) (d : Diff)
    (h : diffGen2 self e = some d) : diffServiceName d = e.1 := by
  unfold diffGen2 at h
  by_cases hn : (mapLookup e.1 self.services).isNone
  · rw [if_pos hn] at h
    cases h
    rfl
  · rw [if_neg hn] at h
    cases h

theorem diffGen1_not_adds (right : Config) (name : String) (e : String × Service)
    (d : Diff) (h : diffGen1 right e = some d) : addsFor name d = false := by
  unfold diffGen1 at h
  cases hlk : mapLookup e.1 right.services with
  | some definition =>
    simp only [hlk] at h
    by_cases hne : e.2 ≠ definition
    · rw [if_pos hne] at h
      cases h
      rfl
    · rw [if_neg hne] at h
      cases h
  | none =>
    simp only [hlk] at h
    cases h
    rfl

theorem diffGen2_only_adds (self : Config) (e : String × Service) (d : Diff)
    (h : diffGen2 self e = some d) : ∃ n s, d = Diff.Addition n s := by
  unfold diffGen2 at h
  by_cases hn : (mapLookup e.1 self.services).isNone
  · rw [if_pos hn] at h
    cases h
    exact ⟨e.1, e.2, rfl⟩
  · rw [if_neg hn] at h
    cases h

theorem diff_alter_filter (old newC : Config) (name : String)
    (hOld : (keys old.services).Nodup) :
    (Config.diffList old newC).filter (altersFor name) =
      match mapLookup name old.services, mapLookup name newC.services with
      | some so, some sn => if so ≠ sn then [Diff.Alteration name sn] else []
      | _, _ => [] := by
  rw [diffList_eq, List.filter_append]
  have h2 : (newC.services.filterMap (diffGen2 old)).filter (altersFor name) = [] := by
    apply filter_filterMap_none
    intro e d h
    rcases diffGen2_only_adds old e d h with ⟨n, s, rfl⟩
    rfl
  rw [h2, List.append_nil]
  cases hlk : mapLookup name old.services with
  | none =>
    rw [filterMap_filter_eq_nil (diffGen1 newC) (altersFor name) name old.services
      (diffGen1_name newC) (altersFor_name name)
      ((mapLookup_eq_none_iff name old.services).mp hlk)]
  | some so =>
    rw [filterMap_filter_of_lookup (diffGen1 newC) (altersFor name) name so
      old.services (diffGen1_name newC) (altersFor_name name) hOld hlk]
    cases hlk2 : mapLookup name newC.services with
    | none => simp [diffGen1, hlk2, altersFor]
    | some sn =>
      by_cases hne : so ≠ sn
      · simp [diffGen1, hlk2, hne, altersFor]
      · simp [diffGen1, hlk2, hne]

theorem diff_removal_filter (old newC : Config) (name : String)
    (hOld : (keys old.services).Nodup) :
    (Config.diffList old newC).filter (removesFor name) =
      match mapLookup name old.services, mapLookup name newC.services with
      | some _, none => [Diff.Removal name]
      | _, _ => [] := by
  rw [diffList_eq, List.filter_append]
  have h2 : (newC.services.filterMap (diffGen2 old)).filter (removesFor name) = [] := by
    apply filter_filterMap_none
    intro e d h
    rcases diffGen2_only_adds old e d h with ⟨n, s, rfl⟩
    rfl
  rw [h2, List.append_nil]
  cases hlk : mapLookup name old.services with
  | none =>
    rw [filterMap_filter_eq_nil (diffGen1 newC) (removesFor name) name old.services
      (diffGen1_name newC) (removesFor_name name)
      ((mapLookup_eq_none_iff name old.services).mp hlk)]
  | some so =>
    rw [filterMap_filter_of_lookup (diffGen1 newC) (removesFor name) name so
      old.services (diffGen1_name newC) (removesFor_name name) hOld hlk]
    cases hlk2 : mapLookup name newC.services with
    | none => simp [diffGen1, hlk2, removesFor]
    | some sn =>
      by_cases hne : so ≠ sn
      · simp [diffGen1, hlk2, hne, removesFor]
      · simp [diffGen1, hlk2, hne]

theorem diff_addition_filter (old newC : Config) (name : String)
    (hNew : (keys newC.services).Nodup) :
    (Config.diffList old newC).filter (addsFor name) =
      match mapLookup name old.services, mapLookup name newC.services with
      | none, some sn => [Diff.Addition name sn]
      | _, _ => [] := by
  rw [diffList_eq, List.filter_append]
  have h1 : (old.services.filterMap (diffGen1 newC)).filter (addsFor name) = [] := by
    apply filter_filterMap_none
    intro e d h
    exact diffGen1_not_adds newC name e d h
  rw [h1, List.nil_append]
  cases hlk : mapLookup name newC.services with
  | none =>
    rw [filterMap_filter_eq_nil (diffGen2 old) (addsFor name) name newC.services
      (diffGen2_name old) (addsFor_name name)
      ((mapLookup_eq_none_iff name newC.services).mp hlk)]
    cases mapLookup name old.services <;> rfl
  | some sn =>
    rw [filterMap_filter_of_lookup (diffGen2 old) (addsFor name) name sn
      newC.services (diffGen2_name old) (addsFor_name name) hNew hlk]
    cases hlk2 : mapLookup name old.services with
    | none => simp [diffGen2, hlk2, addsFor]
    | some so => simp [diffGen2, hlk2]

theorem diffList_self (old : Config) (hOld : (keys old.services).Nodup) :
    Config.diffList old old = [] := by
  rw [diffList_eq]
  have h1 : old.services.filterMap (diffGen1 old) = [] := by
    rw [List.filterMap_eq_nil_iff]
    intro e he
    have : mapLookup e.1 old.services = some e.2 := by
      apply mapLookup_of_mem_nodup e.1 e.2 old.services hOld
      cases e
      exact he
    simp [diffGen1, this]
  have h2 : old.services.filterMap (diffGen2 old) = [] := by
    rw [List.filterMap_eq_nil_iff]
    intro e he
    have : mapLookup e.1 old.services = some e.2 := by
      apply mapLookup_of_mem_nodup e.1 e.2 old.services hOld
      cases e
      exact he
    simp [diffGen2, this]
  rw [h1, h2]
  rfl

/-- Claim C4 (confirmed).  With the keys of each configuration pairwise
distinct (as in a `HashMap`), `diff` emits exactly one `Alteration` for a
name iff the name has a definition in both configurations and the two
definitions differ under derived field-wise equality; exactly one `Removal`
iff the name is defined in `old` and not in `new`; exactly one `Addition`
iff defined in `new` and not in `old`; and `diff(m, m)` emits no change
(returned as `None`, the encoding of the empty change list). -/
theorem c4_diff_characterisation (old newC : Config) (name : String)
    (hOld : (keys old.services).Nodup) (hNew : (keys newC.services).Nodup) :
    (((Config.diffList old newC).filter (altersFor name)).length ≤ 1 ∧
      (((Config.diffList old newC).filter (altersFor name)).length = 1 ↔
        ∃ so sn, mapLookup name old.services = some so ∧
          mapLookup name newC.services = some sn ∧ so ≠ sn)) ∧
    (((Config.diffList old newC).filter (removesFor name)).length ≤ 1 ∧
      (((Config.diffList old newC).filter (removesFor name)).length = 1 ↔
        (mapLookup name old.services).isSome ∧
          mapLookup name newC.services = none)) ∧
    (((Config.diffList old newC).filter (addsFor name)).length ≤ 1 ∧
      (((Config.diffList old newC).filter (addsFor name)).length = 1 ↔
        (mapLookup name newC.services).isSome ∧
          mapLookup name old.services = none)) ∧
    Config.diffList old old = [] ∧ Config.diff old old = none := by
  refine ⟨?_, ?_, ?_, diffList_self old hOld, ?_⟩
  · rw [diff_alter_filter old newC name hOld]
    cases hlk : mapLookup name old.services with
    | none => simp
    | some so =>
      cases hlk2 : mapLookup name newC.services with
      | none => simp
      | some sn =>
        by_cases hne : so ≠ sn
        · simp [hne]
        · simp only [hne, if_false]
          push_neg at hne
          simp [hne]
  · rw [diff_removal_filter old newC name hOld]
    cases hlk : mapLookup name old.services with
    | none => simp
    | some so =>
      cases hlk2 : mapLookup name newC.services with
      | none => simp
      | some sn => simp
  · rw [diff_addition_filter old newC name hNew]
    cases hlk : mapLookup name old.services with
    | none =>
      cases hlk2 : mapLookup name newC.services with
      | none => simp
      | some sn => simp
    | some so =>
      cases hlk2 : mapLookup name newC.services with
      | none => simp
      | some sn => simp
  · rw [Config.diff, diffList_self old hOld]
    rfl

/-- First configuration of the C4 witness (spec scenario 2). -/
def c4Old : Config :=
  ⟨[("backend", ⟨"org/backend", "1", 5000, 1, "example.com", none, none⟩)]⟩

/-- Second configuration of the C4 witness: same service, different tag. -/
def c4New : Config :=
  ⟨[("backend", ⟨"org/backend", "2", 5000, 1, "example.com", none, none⟩)]⟩

/-- Witness for C4 at the two concrete configurations. -/
theorem c4_witness :
    (((Config.diffList c4Old c4New).filter (altersFor "backend")).length ≤ 1 ∧
      (((Config.diffList c4Old c4New).filter (altersFor "backend")).length = 1 ↔
        ∃ so sn, mapLookup "backend" c4Old.services = some so ∧
          mapLookup "backend" c4New.services = some sn ∧ so ≠ sn)) ∧
    (((Config.diffList c4Old c4New).filter (removesFor "backend")).length ≤ 1 ∧
      (((Config.diffList c4Old c4New).filter (removesFor "backend")).length = 1 ↔
        (mapLookup "backend" c4Old.services).isSome ∧
          mapLookup "backend" c4New.services = none)) ∧
    (((Config.diffList c4Old c4New).filter (addsFor "backend")).length ≤ 1 ∧
      (((Config.diffList c4Old c4New).filter (addsFor "backend")).length = 1 ↔
        (mapLookup "backend" c4New.services).isSome ∧
          mapLookup "backend" c4Old.services = none)) ∧
    Config.diffList c4Old c4Old = [] ∧ Config.diff c4Old c4Old = none :=
  c4_diff_characterisation c4Old c4New "backend" (by decide) (by decide)

/-! ## Reconciler: `start_multiple_containers` and `handle_alteration` -/

/-- The `ShutdownMode` enum matched by `Reconciler::handle_alteration`
(`src/reconciler.rs` lines 140-147). -/
inductive ShutdownMode
  | Graceful
  | Forceful
deriving DecidableEq, Repr

/-- The `Service` of the `config.rs` revision `reconciler.rs` compiles
against: the fields of `Service` plus `shutdown_mode`; `replicas` there is a
positive `ReplicaCount`, modelled as `Nat` (the reconciler only reads it as a
loop bound via `.get()`). -/
structure RService where
  image : String
  tag : String
  port : Nat
  replicas : Nat
  host : String
  pathPrefix : Option Str
  environment : Option (List (String × String))
  shutdown_mode : ShutdownMode
deriving DecidableEq, Repr

/-- One observable container-engine effect of a reconciliation step:
a successful `create_and_start_container` (create + start + IP fetch), a
`stop_container`, or a `remove_container`. -/
inductive EngineOp
  | createStart (details : StartedContainerDetails)
  | stop (id : ContainerId)
  | remove (id : ContainerId)
deriving DecidableEq, Repr

/-- Result of a reconciler handler: the registry afterwards, the engine
calls issued in order, and whether the handler returned `Ok`. -/
structure ReconcileOutcome where
  registry : ServiceRegistry RService
  engineOps : List EngineOp
  ok : Bool
deriving DecidableEq, Repr

/-- The create/start loop of `start_multiple_containers`
(`src/reconciler.rs` lines 92-102).  One entry of the list per iteration of
`for _ in 0..replicas.get()`: `some d` is a successful
`create_and_start_container` yielding `d`, `none` is a failure which the `?`
operator propagates immediately.  Returns whether the loop completed and the
containers started so far, in order; nothing is cleaned up on failure. -/
def createLoop : List (Option StartedContainerDetails) →
    Bool × List StartedContainerDetails
  | [] => (true, [])
  | none :: _ => (false, [])
  | some d :: rest =>
    let r := createLoop rest
    (r.1, d :: r.2)

/-- `Reconciler::start_multiple_containers` (lines 79-112): run the create
loop; on success take the write lock, `define` the service and
`add_container` every started container; on failure return the error with
the registry untouched. -/
def start_multiple_containers (r : ServiceRegistry RService) (name : String)
    (new_definition : RService)
    (creations : List (Option StartedContainerDetails)) : ReconcileOutcome :=
  let res := createLoop creations
  let ops := res.2.map EngineOp.createStart
  if res.1 then
    let r2 := ServiceRegistry.define r name new_definition
    let r3 := res.2.foldl (fun acc d => ServiceRegistry.add_container acc name d) r2
    { registry := r3, engineOps := ops, ok := true }
  else
    { registry := r, engineOps := ops, ok := false }

/-- The per-container shutdown call of `handle_alteration` (lines 139-148):
`stop_container` under `Graceful`, `remove_container` under `Forceful`. -/
def shutdownOp (mode : ShutdownMode) (d : StartedContainerDetails) : EngineOp :=
  match mode with
  | ShutdownMode.Graceful => EngineOp.stop d.id
  | ShutdownMode.Forceful => EngineOp.remove d.id

/-- `Reconciler::handle_alteration` (lines 114-151): snapshot the running
containers (error if the service has no containers entry), start the new
replicas, then remove the old backends from the registry by id, then stop or
remove each old container per the OLD definition's shutdown mode. -/
def handle_alteration (r : ServiceRegistry RService) (name : String)
    (old_definition new_definition : RService)
    (creations : List (Option StartedContainerDetails)) : ReconcileOutcome :=
  match ServiceRegistry.get_running_containers r name with
  | none => { registry := r, engineOps := [], ok := false }
  | some running =>
    let smc := start_multiple_containers r name new_definition creations
    if smc.ok then
      let r2 := running.foldl
        (fun acc d => ServiceRegistry.remove_container_by_id acc name d.id)
        smc.registry
      { registry := r2,
        engineOps := smc.engineOps ++
          running.map (shutdownOp old_definition.shutdown_mode),
        ok := true }
    else
      { registry := smc.registry, engineOps := smc.engineOps, ok := false }

theorem createLoop_all_some (newDs : List StartedContainerDetails) :
    createLoop (newDs.map some) = (true, newDs) := by
  induction newDs with
  | nil => rfl
  | cons d rest ih => simp [createLoop, ih]

theorem createLoop_fail (createdDs : List StartedContainerDetails)
    (rest : List (Option StartedContainerDetails)) :
    createLoop (createdDs.map some ++ none :: rest) = (false, createdDs) := by
  induction createdDs with
  | nil => rfl
  | cons d ds ih => simp [createLoop, ih]

theorem add_container_definitions (r : ServiceRegistry δ) (name : String)
    (d : StartedContainerDetails) :
    (ServiceRegistry.add_container r name d).definitions = r.definitions := rfl

theorem remove_container_definitions (r : ServiceRegistry δ) (name : String)
    (id : ContainerId) :
    (ServiceRegistry.remove_container_by_id r name id).definitions =
      r.definitions := by
  unfold ServiceRegistry.remove_container_by_id
  cases mapLookup name r.containers with
  | none => rfl
  | some cs => rfl

theorem foldl_add_container_definitions (name : String)
    (newDs : List StartedContainerDetails) (r : ServiceRegistry δ) :
    (newDs.foldl (fun acc d => ServiceRegistry.add_container acc name d)
      r).definitions = r.definitions := by
  induction newDs generalizing r with
  | nil => rfl
  | cons d rest ih =>
    rw [List.foldl_cons, ih, add_container_definitions]

theorem foldl_remove_container_definitions (name : String)
    (olds : List StartedContainerDetails) (r : ServiceRegistry δ) :
    (olds.foldl (fun acc d => ServiceRegistry.remove_container_by_id acc name d.id)
      r).definitions = r.definitions := by
  induction olds generalizing r with
  | nil => rfl
  | cons d rest ih =>
    rw [List.foldl_cons, ih, remove_container_definitions]

theorem add_container_lookup (r : ServiceRegistry δ) (name : String)
    (d : StartedContainerDetails) (cur : List StartedContainerDetails)
    (h : mapLookup name r.containers = some cur) :
    ServiceRegistry.get_running_containers
      (ServiceRegistry.add_container r name d) name =
      some (indexSetInsert cur d) := by
  unfold ServiceRegistry.add_container ServiceRegistry.get_running_containers
  rw [h]
  exact mapLookup_insert_self name _ r.containers

theorem foldl_add_container_lookup (name : String)
    (newDs : List StartedContainerDetails) (r : ServiceRegistry δ)
    (cur : List StartedContainerDetails)
    (h : mapLookup name r.containers = some cur) :
    ServiceRegistry.get_running_containers
      (newDs.foldl (fun acc d => ServiceRegistry.add_container acc name d) r)
      name = some (newDs.foldl indexSetInsert cur) := by
  induction newDs generalizing r cur with
  | nil => exact h
  | cons d rest ih =>
    rw [List.foldl_cons, List.foldl_cons]
    exact ih (ServiceRegistry.add_container r name d) (indexSetInsert cur d)
      (add_container_lookup r name d cur h)

theorem remove_container_lookup (r : ServiceRegistry δ) (name : String)
    (id : ContainerId) (cur : List StartedContainerDetails)
    (h : mapLookup name r.containers = some cur) :
    ServiceRegistry.get_running_containers
      (ServiceRegistry.remove_container_by_id r name id) name =
      some (cur.filter (fun c => c.id ≠ id)) := by
  unfold ServiceRegistry.remove_container_by_id ServiceRegistry.get_running_containers
  rw [h]
  exact mapLookup_insert_self name _ r.containers

theorem foldl_remove_container_lookup (name : String)
    (olds : List StartedContainerDetails) (r : ServiceRegistry δ)
    (cur : List StartedContainerDetails)
    (h : mapLookup name r.containers = some cur) :
    ServiceRegistry.get_running_containers
      (olds.foldl (fun acc d => ServiceRegistry.remove_container_by_id acc name d.id) r)
      name = some (cur.filter (fun c => olds.all (fun o => c.id ≠ o.id))) := by
  induction olds generalizing r cur with
  | nil =>
    simp only [List.foldl_nil, List.all_nil, List.filter_true]
    exact h
  | cons o rest ih =>
    rw [List.foldl_cons]
    have step := remove_container_lookup r name o.id cur h
    have := ih (ServiceRegistry.remove_container_by_id r name o.id)
      (cur.filter (fun c => c.id ≠ o.id)) step
    rw [this, List.filter_filter]
    congr 1
    apply List.filter_congr
    intro c _
    simp [List.all_cons, Bool.and_comm]

theorem foldl_indexSetInsert_fresh (cur newDs : List StartedContainerDetails)
    (h : ∀ d ∈ newDs, d ∉ cur) (hnd : newDs.Nodup) :
    newDs.foldl indexSetInsert cur = cur ++ newDs := by
  induction newDs generalizing cur with
  | nil => simp
  | cons d rest ih =>
    rcases List.nodup_cons.mp hnd with ⟨hd, hnd2⟩
    have hstep : indexSetInsert cur d = cur ++ [d] := by
      unfold indexSetInsert
      rw [if_neg (h d (List.mem_cons_self _ _))]
    have hsub : ∀ x ∈ rest, x ∉ cur ++ [d] := by
      intro x hx hmem
      cases List.mem_append.mp hmem with
      | inl hc => exact h x (List.mem_cons_of_mem _ hx) hc
      | inr hc =>
        rw [List.mem_singleton] at hc
        exact hd (hc ▸ hx)
    rw [List.foldl_cons, hstep, ih (cur ++ [d]) hsub hnd2]
    simp

/-- Claim C5 (confirmed).  Under a successful create loop (one started
container per new replica, fresh ids, no duplicates) applied to a service
with a recorded backend set, `handle_alteration` succeeds; afterwards the
registry holds exactly the new backends and the new definition for the
service, and the engine calls are all the creates/starts followed by one
stop (Graceful) or remove (Forceful) per old container — make-before-break. -/
theorem c5_alteration_make_before_break
    (r : ServiceRegistry RService) (name : String)
    (old_definition new_definition : RService)
    (running newDs : List StartedContainerDetails)
    (hrun : ServiceRegistry.get_running_containers r name = some running)
    (_hne : running ≠ [])
    (_hlen : newDs.length = new_definition.replicas)
    (hnd : newDs.Nodup)
    (hfresh : ∀ d ∈ newDs, ∀ o ∈ running, d.id ≠ o.id) :
    (handle_alteration r name old_definition new_definition
        (newDs.map some)).ok = true ∧
    ServiceRegistry.get_running_containers
      (handle_alteration r name old_definition new_definition
        (newDs.map some)).registry name = some newDs ∧
    mapLookup name
      (handle_alteration r name old_definition new_definition
        (newDs.map some)).registry.definitions = some new_definition ∧
    (handle_alteration r name old_definition new_definition
        (newDs.map some)).engineOps =
      newDs.map EngineOp.createStart ++
        running.map (shutdownOp old_definition.shutdown_mode) := by
  have hfreshmem : ∀ d ∈ newDs, d ∉ running := by
    intro d hd hmem
    exact hfresh d hd d hmem rfl
  have hsmc : start_multiple_containers r name new_definition (newDs.map some) =
      { registry := newDs.foldl
          (fun acc d => ServiceRegistry.add_container acc name d)
          (ServiceRegistry.define r name new_definition),
        engineOps := newDs.map EngineOp.createStart, ok := true } := by
    unfold start_multiple_containers
    rw [createLoop_all_some]
    rfl
  have hdefcont :
      mapLookup name (ServiceRegistry.define r name new_definition).containers =
        some running := hrun
  have hfoldadd := foldl_add_container_lookup name newDs
    (ServiceRegistry.define r name new_definition) running hdefcont
  rw [foldl_indexSetInsert_fresh running newDs hfreshmem hnd] at hfoldadd
  have hfinal := foldl_remove_container_lookup name running
    (newDs.foldl (fun acc d => ServiceRegistry.add_container acc name d)
      (ServiceRegistry.define r name new_definition))
    (running ++ newDs) hfoldadd
  have hfilter :
      (running ++ newDs).filter (fun c => running.all (fun o => c.id ≠ o.id)) =
        newDs := by
    rw [List.filter_append]
    have h1 : running.filter (fun c => running.all (fun o => c.id ≠ o.id)) = [] := by
      rw [List.filter_eq_nil_iff]
      intro c hc hp
      have := List.all_eq_true.mp hp c hc
      simp at this
    have h2 : newDs.filter (fun c => running.all (fun o => c.id ≠ o.id)) = newDs := by
      rw [List.filter_eq_self]
      intro d hd
      rw [List.all_eq_true]
      intro o ho
      simp [hfresh d hd o ho]
    rw [h1, h2, List.nil_append]
  rw [hfilter] at hfinal
  have hdefs :
      mapLookup name
        ((running.foldl
          (fun acc d => ServiceRegistry.remove_container_by_id acc name d.id)
          (newDs.foldl (fun acc d => ServiceRegistry.add_container acc name d)
            (ServiceRegistry.define r name new_definition)))).definitions =
        some new_definition := by
    rw [foldl_remove_container_definitions, foldl_add_container_definitions]
    exact mapLookup_insert_self name new_definition r.definitions
  simp only [handle_alteration, hrun, hsmc]
  exact ⟨rfl, hfinal, hdefs, rfl⟩

/-- Concrete old backend for the C5 witness. -/
def c5Old : StartedContainerDetails := ⟨⟨"old1"⟩, ⟨10, 0, 0, 2⟩⟩

/-- Concrete new backend for the C5 witness. -/
def c5New : StartedContainerDetails := ⟨⟨"new1"⟩, ⟨10, 0, 0, 3⟩⟩

/-- Old definition (tag 1, Forceful) for the C5 witness. -/
def c5OldDef : RService :=
  ⟨"org/backend", "1", 5000, 1, "example.com", none, none, ShutdownMode.Forceful⟩

/-- New definition (tag 2) for the C5 witness. -/
def c5NewDef : RService :=
  ⟨"org/backend", "2", 5000, 1, "example.com", none, none, ShutdownMode.Forceful⟩

/-- Registry for the C5 witness: `svc` defined with one running backend. -/
def c5Registry : ServiceRegistry RService :=
  ServiceRegistry.add_container
    (ServiceRegistry.define (ServiceRegistry.empty (δ := RService)) "svc" c5OldDef)
    "svc" c5Old

/-- Witness for C5: one replica of tag 2 replaces the tag 1 backend. -/
theorem c5_witness :
    (handle_alteration c5Registry "svc" c5OldDef c5NewDef ([c5New].map some)).ok
        = true ∧
    ServiceRegistry.get_running_containers
      (handle_alteration c5Registry "svc" c5OldDef c5NewDef
        ([c5New].map some)).registry "svc" = some [c5New] ∧
    mapLookup "svc"
      (handle_alteration c5Registry "svc" c5OldDef c5NewDef
        ([c5New].map some)).registry.definitions = some c5NewDef ∧
    (handle_alteration c5Registry "svc" c5OldDef c5NewDef
        ([c5New].map some)).engineOps =
      [c5New].map EngineOp.createStart ++
        [c5Old].map (shutdownOp c5OldDef.shutdown_mode) :=
  c5_alteration_make_before_break c5Registry "svc" c5OldDef c5NewDef
    [c5Old] [c5New] (by decide) (by decide) (by decide) (by decide) (by decide)

/-- Claim C6 (corrected).  When one of the creates fails, the alteration is
aborted with the registry exactly as before (no definition or backend
change), but the containers already created for the change are NOT removed:
the engine receives only their create calls and no `remove` at all. -/
theorem c6_failure_keeps_registry_but_leaks_containers
    (r : ServiceRegistry RService) (name : String)
    (old_definition new_definition : RService)
    (running createdDs : List StartedContainerDetails)
    (restCreations : List (Option StartedContainerDetails))
    (hrun : ServiceRegistry.get_running_containers r name = some running) :
    (handle_alteration r name old_definition new_definition
        (createdDs.map some ++ none :: restCreations)).ok = false ∧
    (handle_alteration r name old_definition new_definition
        (createdDs.map some ++ none :: restCreations)).registry = r ∧
    (handle_alteration r name old_definition new_definition
        (createdDs.map some ++ none :: restCreations)).engineOps =
      createdDs.map EngineOp.createStart ∧
    ∀ i : ContainerId,
      EngineOp.remove i ∉
        (handle_alteration r name old_definition new_definition
          (createdDs.map some ++ none :: restCreations)).engineOps := by
  have hsmc : start_multiple_containers r name new_definition
      (createdDs.map some ++ none :: restCreations) =
      { registry := r, engineOps := createdDs.map EngineOp.createStart,
        ok := false } := by
    unfold start_multiple_containers
    rw [createLoop_fail]
    rfl
  simp only [handle_alteration, hrun, hsmc]
  refine ⟨rfl, rfl, rfl, ?_⟩
  intro i hmem
  rcases List.mem_map.mp hmem with ⟨d, _, hd⟩
  cases hd

/-- Registry for the C6 witness and counterexample. -/
def c6Registry : ServiceRegistry RService :=
  ServiceRegistry.add_container
    (ServiceRegistry.define (ServiceRegistry.empty (δ := RService)) "svc" c5OldDef)
    "svc" ⟨⟨"old6"⟩, ⟨10, 0, 0, 4⟩⟩

/-- The container created before the failure in the C6 scenario. -/
def c6Created : StartedContainerDetails := ⟨⟨"new6"⟩, ⟨10, 0, 0, 5⟩⟩

/-- Witness for C6: two replicas requested, the first create succeeds and
the second fails. -/
theorem c6_witness :
    (handle_alteration c6Registry "svc" c5OldDef c5NewDef
        ([c6Created].map some ++ none :: [])).ok = false ∧
    (handle_alteration c6Registry "svc" c5OldDef c5NewDef
        ([c6Created].map some ++ none :: [])).registry = c6Registry ∧
    (handle_alteration c6Registry "svc" c5OldDef c5NewDef
        ([c6Created].map some ++ none :: [])).engineOps =
      [c6Created].map EngineOp.createStart ∧
    ∀ i : ContainerId,
      EngineOp.remove i ∉
        (handle_alteration c6Registry "svc" c5OldDef c5NewDef
          ([c6Created].map some ++ none :: [])).engineOps :=
  c6_failure_keeps_registry_but_leaks_containers c6Registry "svc" c5OldDef
    c5NewDef [⟨⟨"old6"⟩, ⟨10, 0, 0, 4⟩⟩] [c6Created] [] (by decide)

/-- Claim C6, counterexample to the claim as stated: after the second create
fails, the first created container is not force-removed — the engine log
holds its create and no remove. -/
theorem c6_counterexample :
    (handle_alteration c6Registry "svc" c5OldDef c5NewDef
        [some c6Created, none]).engineOps = [EngineOp.createStart c6Created] ∧
    EngineOp.remove c6Created.id ∉
      (handle_alteration c6Registry "svc" c5OldDef c5NewDef
        [some c6Created, none]).engineOps := by
  decide

/-! ## Proxy: admin commands and authentication -/

/-- The HTTP method of a request; `check_for_admin_commands` only compares
against `PUT`. -/
inductive Method
  | PUT
  | GET
  | POST
  | DELETE
deriving DecidableEq, Repr

/-- An `Authorization` header value as seen through `HeaderValue::to_str`:
`malformed` models a value whose `to_str` fails (non-visible-ASCII bytes). -/
inductive HeaderValue
  | malformed
  | value (content : Str)
deriving DecidableEq, Repr

/-- `is_admin_request_authorised` (`src/load_balancer/proxy.rs` lines
130-144): missing header, failing `to_str`, or missing `Bearer&#32;` prefix all
deny; otherwise plain equality of the rest against the passphrase. -/
def is_admin_request_authorised (auth : Option HeaderValue)
    (passphrase : Str) : Bool :=
  match auth with
  | none => false
  | some HeaderValue.malformed => false
  | some (HeaderValue.value content) =>
    match rustStripPrefix content (str "Bearer ") with
    | none => false
    | some received => received = passphrase

/-- The two typed channels of the message bus (`src/ipc.rs`). -/
inductive Channel
  | reconciliation
  | certificate_update
deriving DecidableEq, Repr

/-- `check_for_admin_commands` (`src/load_balancer/proxy.rs` lines 80-128):
the returned status (`none` means fall through to normal routing) together
with the bus messages sent, in order. -/
def check_for_admin_commands (method : Method) (path : Option Str)
    (auth : Option HeaderValue) (reconciliation_path : Str)
    (passphrase : Str) : Option Nat × List Channel :=
  if method ≠ Method.PUT then (none, [])
  else
    match path with
    | none => (none, [])
    | some suffix =>
      if suffix = reconciliation_path then
        if ¬ is_admin_request_authorised auth passphrase then (some 403, [])
        else (some 200, [Channel.reconciliation])
      else if suffix = str "/certificates" then
        if ¬ is_admin_request_authorised auth passphrase then (some 403, [])
        else (some 200, [Channel.certificate_update])
      else (none, [])

theorem rustStripPrefix_append (p s : Str) : rustStripPrefix (p ++ s) p = some s := by
  unfold rustStripPrefix
  rw [if_pos (List.isPrefixOf_iff_prefix.mpr (List.prefix_append p s))]
  rw [List.drop_left]

/-- Claim C7 (confirmed).  A `PUT` to the reconciliation path or to
`/certificates` with a missing, malformed or wrong bearer yields 403 and
sends nothing; with the correct bearer it yields 200 and sends exactly one
message on the corresponding channel; any non-`PUT` method falls through to
normal routing.  (When the configured reconciliation path is itself
`/certificates`, the first branch wins, so the certificate clauses assume
the two paths differ.) -/
theorem c7_admin_bearer_enforcement (method : Method) (path : Option Str)
    (auth : Option HeaderValue) (rp pass : Str) :
    (method ≠ Method.PUT →
      check_for_admin_commands method path auth rp pass = (none, [])) ∧
    (check_for_admin_commands Method.PUT (some rp) none rp pass =
      (some 403, [])) ∧
    (check_for_admin_commands Method.PUT (some rp)
      (some HeaderValue.malformed) rp pass = (some 403, [])) ∧
    (∀ content : Str, rustStripPrefix content (str "Bearer ") = none →
      check_for_admin_commands Method.PUT (some rp)
        (some (HeaderValue.value content)) rp pass = (some 403, [])) ∧
    (∀ received : Str, received ≠ pass →
      check_for_admin_commands Method.PUT (some rp)
        (some (HeaderValue.value (str "Bearer " ++ received))) rp pass =
        (some 403, [])) ∧
    (check_for_admin_commands Method.PUT (some rp)
      (some (HeaderValue.value (str "Bearer " ++ pass))) rp pass =
      (some 200, [Channel.reconciliation])) ∧
    (str "/certificates" ≠ rp →
      check_for_admin_commands Method.PUT (some (str "/certificates")) none
        rp pass = (some 403, [])) ∧
    (str "/certificates" ≠ rp → ∀ received : Str, received ≠ pass →
      check_for_admin_commands Method.PUT (some (str "/certificates"))
        (some (HeaderValue.value (str "Bearer " ++ received))) rp pass =
        (some 403, [])) ∧
    (str "/certificates" ≠ rp →
      check_for_admin_commands Method.PUT (some (str "/certificates"))
        (some (HeaderValue.value (str "Bearer " ++ pass))) rp pass =
        (some 200, [Channel.certificate_update])) := by
  refine ⟨?_, ?_, ?_, ?_, ?_, ?_, ?_, ?_, ?_⟩
  · intro h
    simp [check_for_admin_commands, h]
  · simp [check_for_admin_commands, is_admin_request_authorised]
  · simp [check_for_admin_commands, is_admin_request_authorised]
  · intro content h
    simp [check_for_admin_commands, is_admin_request_authorised, h]
  · intro received h
    simp [check_for_admin_commands, is_admin_request_authorised,
      rustStripPrefix_append, h]
  · simp [check_for_admin_commands, is_admin_request_authorised,
      rustStripPrefix_append]
  · intro h
    simp [check_for_admin_commands, is_admin_request_authorised, h]
  · intro h received hr
    simp [check_for_admin_commands, is_admin_request_authorised,
      rustStripPrefix_append, h, hr]
  · intro h
    simp [check_for_admin_commands, is_admin_request_authorised,
      rustStripPrefix_append, h]

/-- Witness for C7: every clause applied at the concrete reconciliation path
`/reconciliation` and passphrase `pw`. -/
theorem c7_witness :
    check_for_admin_commands Method.GET (some (str "/reconciliation")) none
      (str "/reconciliation") (str "pw") = (none, []) ∧
    check_for_admin_commands Method.PUT (some (str "/reconciliation")) none
      (str "/reconciliation") (str "pw") = (some 403, []) ∧
    check_for_admin_commands Method.PUT (some (str "/reconciliation"))
      (some HeaderValue.malformed) (str "/reconciliation") (str "pw") =
      (some 403, []) ∧
    check_for_admin_commands Method.PUT (some (str "/reconciliation"))
      (some (HeaderValue.value (str "Basic x"))) (str "/reconciliation")
      (str "pw") = (some 403, []) ∧
    check_for_admin_commands Method.PUT (some (str "/reconciliation"))
      (some (HeaderValue.value (str "Bearer " ++ str "wrong")))
      (str "/reconciliation") (str "pw") = (some 403, []) ∧
    check_for_admin_commands Method.PUT (some (str "/reconciliation"))
      (some (HeaderValue.value (str "Bearer " ++ str "pw")))
      (str "/reconciliation") (str "pw") = (some 200, [Channel.reconciliation]) ∧
    check_for_admin_commands Method.PUT (some (str "/certificates")) none
      (str "/reconciliation") (str "pw") = (some 403, []) ∧
    check_for_admin_commands Method.PUT (some (str "/certificates"))
      (some (HeaderValue.value (str "Bearer " ++ str "wrong")))
      (str "/reconciliation") (str "pw") = (some 403, []) ∧
    check_for_admin_commands Method.PUT (some (str "/certificates"))
      (some (HeaderValue.value (str "Bearer " ++ str "pw")))
      (str "/reconciliation") (str "pw") =
      (some 200, [Channel.certificate_update]) := by
  have h := c7_admin_bearer_enforcement Method.GET
    (some (str "/reconciliation")) none (str "/reconciliation") (str "pw")
  exact ⟨h.1 (by decide), h.2.1, h.2.2.1, h.2.2.2.1 (str "Basic x") (by decide),
    h.2.2.2.2.1 (str "wrong") (by decide), h.2.2.2.2.2.1,
    h.2.2.2.2.2.2.1 (by decide), h.2.2.2.2.2.2.2.1 (by decide) (str "wrong") (by decide),
    h.2.2.2.2.2.2.2.2 (by decide)⟩

/-! ## Blob unsealing: `find_replaceable_segments` and `decrypt_content` -/

/-- Rust `str::trim_start_matches`, written with fuel (one repetition can
remove at least one character, so `s.length` much fuel suffices). -/
def trimStartLoop (p : Str) : Nat → Str → Str
  | 0, s => s
  | fuel + 1, s =>
    if p ≠ [] ∧ p.isPrefixOf s then trimStartLoop p fuel (s.drop p.length) else s

/-- Rust `str::trim_start_matches`: repeatedly strip the pattern from the
front. -/
def trimStartMatches (p s : Str) : Str := trimStartLoop p s.length s

/-- Rust `str::trim_end_matches`: repeatedly strip the pattern from the end
(done on the reversals). -/
def trimEndMatches (p s : Str) : Str :=
  (trimStartMatches p.reverse s.reverse).reverse

/-- The `Segment` enum of `src/docker/api.rs` (lines 204-208). -/
inductive Segment
  | Secret (encrypted : Str)
  | Text (t : Str)
deriving DecidableEq, Repr

/-- The character loop of `find_replaceable_segments`
(`src/docker/api.rs` lines 210-247).  First argument: remaining input
(the peekable iterator); second: `current_segment`.  On two left braces the
accumulated text is flushed and the buffer restarts with them; on two right
braces the buffer plus braces is trimmed and emitted as a `Secret` — note
this branch needs no preceding left braces; otherwise the character is
appended.  The trailing buffer is flushed as text. -/
def segmentsLoop : Str → Str → List Segment
  | [], cur => if cur = [] then [] else [Segment.Text cur]
  | [c], cur =>
    if cur ++ [c] = [] then [] else [Segment.Text (cur ++ [c])]
  | c :: c2 :: rest, cur =>
    if c = '{' ∧ c2 = '{' then
      (if cur = [] then [] else [Segment.Text cur]) ++
        segmentsLoop rest ['{', '{']
    else if c = '}' ∧ c2 = '}' then
      Segment.Secret
          (trimEndMatches [' ', '}', '}']
            (trimStartMatches ['{', '{', ' '] (cur ++ ['}', '}'])))
        :: segmentsLoop rest []
    else
      segmentsLoop (c2 :: rest) (cur ++ [c])

/-- `find_replaceable_segments` (lines 210-247). -/
def find_replaceable_segments (content : Str) : List Segment :=
  segmentsLoop content []

/-- `decrypt` from `src/crypto.rs` (lines 21-27): a strict base64 decode of
the standard padded alphabet (any input whose length is not a multiple of 4
fails before the key is consulted), then RSA decryption and UTF-8 decoding,
which are abstracted into the `rsa` oracle standing for one private key. -/
def decrypt (rsa : Str → Except Unit Str) (secret : Str) : Except Unit Str :=
  if secret.length % 4 = 0 then rsa secret else Except.error ()

/-- `decrypt_content` (`src/docker/api.rs` lines 180-202): without a key the
bytes are returned unchanged; with a key the UTF-8 content is segmented and
rebuilt with every secret segment decrypted, errors propagating.  Claim C8
restricts itself to UTF-8 inputs, which the `Str` model represents. -/
def decrypt_content (rsa : Option (Str → Except Unit Str)) (content : Str) :
    Except Unit Str :=
  match rsa with
  | none => Except.ok content
  | some key =>
    (find_replaceable_segments content).foldl
      (fun acc seg =>
        acc.bind (fun s =>
          match seg with
          | Segment.Text t => Except.ok (s ++ t)
          | Segment.Secret e => (decrypt key e).map (fun p => s ++ p)))
      (Except.ok [])

/-- Two adjacent right braces somewhere in the string. -/
def hasAdjacentRBraces : Str → Bool
  | c :: c2 :: rest =>
    (decide (c = '}') && decide (c2 = '}')) || hasAdjacentRBraces (c2 :: rest)
  | _ => false

/-- Two adjacent left braces somewhere in the string (a `{{ ... }}` marker
requires them). -/
def hasAdjacentLBraces : Str → Bool
  | c :: c2 :: rest =>
    (decide (c = '{') && decide (c2 = '{')) || hasAdjacentLBraces (c2 :: rest)
  | _ => false

theorem hasAdjacentRBraces_tail (c : Char) (l : Str)
    (h : hasAdjacentRBraces (c :: l) = false) : hasAdjacentRBraces l = false := by
  cases l with
  | nil => rfl
  | cons c2 rest =>
    simp only [hasAdjacentRBraces, Bool.or_eq_false_iff] at h
    exact h.2

/-- Concatenation of an all-text segment list (`none` if a secret occurs). -/
def allTextConcat : List Segment → Option Str
  | [] => some []
  | Segment.Text t :: rest => (allTextConcat rest).map (fun s => t ++ s)
  | Segment.Secret _ :: _ => none

theorem allTextConcat_flush (cur : Str) (L : List Segment) :
    allTextConcat ((if cur = [] then [] else [Segment.Text cur]) ++ L) =
      (allTextConcat L).map (fun s => cur ++ s) := by
  by_cases hc : cur = []
  · subst hc
    cases hL : allTextConcat L with
    | none => simp [hL]
    | some s => simp [hL]
  · rw [if_neg hc]
    rfl

theorem segmentsLoop_no_secret (n : Nat) :
    ∀ input cur : Str, input.length ≤ n → hasAdjacentRBraces input = false →
      allTextConcat (segmentsLoop input cur) = some (cur ++ input) := by
  induction n with
  | zero =>
    intro input cur hlen h
    cases input with
    | nil =>
      by_cases hc : cur = []
      · simp [segmentsLoop, hc, allTextConcat]
      · simp [segmentsLoop, hc, allTextConcat]
    | cons c rest => simp at hlen
  | succ n ih =>
    intro input cur hlen h
    cases input with
    | nil =>
      by_cases hc : cur = []
      · simp [segmentsLoop, hc, allTextConcat]
      · simp [segmentsLoop, hc, allTextConcat]
    | cons c rest =>
      cases rest with
      | nil =>
        have hne : cur ++ [c] ≠ [] := by simp
        simp [segmentsLoop, hne, allTextConcat]
      | cons c2 rest2 =>
        by_cases hbl : c = '{' ∧ c2 = '{'
        · have h2 : hasAdjacentRBraces rest2 = false :=
            hasAdjacentRBraces_tail c2 rest2 (hasAdjacentRBraces_tail c _ h)
          have hlen2 : rest2.length ≤ n := by
            simp only [List.length_cons] at hlen
            omega
          have hrec := ih rest2 ['{', '{'] hlen2 h2
          rw [segmentsLoop, if_pos hbl, allTextConcat_flush, hrec]
          simp [hbl.1, hbl.2]
        · by_cases hbr : c = '}' ∧ c2 = '}'
          · rw [hbr.1, hbr.2] at h
            simp [hasAdjacentRBraces] at h
          · have h2 : hasAdjacentRBraces (c2 :: rest2) = false :=
              hasAdjacentRBraces_tail c _ h
            have hlen2 : (c2 :: rest2).length ≤ n := by
              simp only [List.length_cons] at hlen
              simp only [List.length_cons]
              omega
            have hrec := ih (c2 :: rest2) (cur ++ [c]) hlen2 h2
            rw [segmentsLoop, if_neg hbl, if_neg hbr, hrec]
            simp

theorem foldl_allText (key : Str → Except Unit Str) (segs : List Segment)
    (s0 con : Str) (h : allTextConcat segs = some con) :
    segs.foldl
      (fun acc seg =>
        acc.bind (fun s =>
          match seg with
          | Segment.Text t => Except.ok (s ++ t)
          | Segment.Secret e => (decrypt key e).map (fun p => s ++ p)))
      (Except.ok s0) = Except.ok (s0 ++ con) := by
  induction segs generalizing s0 con with
  | nil =>
    simp only [allTextConcat, Option.some.injEq] at h
    subst h
    simp
  | cons seg rest ih =>
    cases seg with
    | Secret e => simp [allTextConcat] at h
    | Text t =>
      simp only [allTextConcat] at h
      cases hr : allTextConcat rest with
      | none => rw [hr] at h; cases h
      | some c2 =>
        rw [hr] at h
        simp only [Option.map_some', Option.some.injEq] at h
        rw [List.foldl_cons]
        have hstep : (Except.ok s0 : Except Unit Str).bind
            (fun s =>
              match (Segment.Text t : Segment) with
              | Segment.Text t => Except.ok (s ++ t)
              | Segment.Secret e => (decrypt key e).map (fun p => s ++ p)) =
            Except.ok (s0 ++ t) := rfl
        rw [hstep, ih (s0 ++ t) c2 hr, ← h, List.append_assoc]

/-- Claim C8 (corrected).  Blob unsealing is the identity — for every key
including none — on every UTF-8 input with NO two adjacent right braces;
the claim as stated (identity on every marker-free input) fails, because a
bare `&#125;&#125;` with no opening marker still produces a secret segment. -/
theorem c8_no_rbraces_identity (content : Str)
    (h : hasAdjacentRBraces content = false) :
    ∀ rsa : Option (Str → Except Unit Str),
      decrypt_content rsa content = Except.ok content := by
  intro rsa
  cases rsa with
  | none => rfl
  | some key =>
    have hseg := segmentsLoop_no_secret content.length content []
      (le_refl _) h
    rw [List.nil_append] at hseg
    simp only [decrypt_content, find_replaceable_segments]
    rw [foldl_allText key (segmentsLoop content []) [] content hseg,
      List.nil_append]

/-- Witness for C8: an input with an unterminated opening marker and no
adjacent right braces survives unsealing unchanged under a key. -/
theorem c8_witness :
    decrypt_content (some (fun s => Except.ok s))
      ['a', ' ', '{', '{', ' ', 'b'] = Except.ok ['a', ' ', '{', '{', ' ', 'b'] :=
  c8_no_rbraces_identity ['a', ' ', '{', '{', ' ', 'b'] (by decide)
    (some (fun s => Except.ok s))

/-- Claim C8, counterexample to the claim as stated: the input consisting of
`x`, a space and two right braces contains no two adjacent left braces, so
no `{{ ... }}` marker, yet with any key present unsealing fails instead of
returning the input: the scanner emits a secret segment whose base64
decoding (length 1) fails before any key is consulted. -/
theorem c8_counterexample :
    hasAdjacentLBraces ['x', ' ', '}', '}'] = false ∧
    decrypt_content (some (fun s => Except.ok s)) ['x', ' ', '}', '}'] =
      Except.error () :=
  ⟨rfl, rfl⟩

/-! ## `add_container` deduplication (C9) -/

/-- Claim C9 (corrected).  `add_container` appends to the insertion-ordered
set and ignores a duplicate only under FULL equality of
`StartedContainerDetails` (id AND addr, the derived `Eq`): a duplicate
`(id, addr)` pair leaves the registry unchanged, anything else — including a
backend with an already-present id but a different address — is appended. -/
theorem c9_add_container_dedup (δ : Type) (r : ServiceRegistry δ)
    (name : String) (cs : List StartedContainerDetails)
    (d : StartedContainerDetails)
    (h : ServiceRegistry.get_running_containers r name = some cs) :
    (d ∈ cs → ServiceRegistry.add_container r name d = r) ∧
    (d ∉ cs → ServiceRegistry.get_running_containers
        (ServiceRegistry.add_container r name d) name = some (cs ++ [d])) := by
  constructor
  · intro hmem
    unfold ServiceRegistry.add_container
    have hlk : mapLookup name r.containers = some cs := h
    rw [hlk]
    simp only [Option.getD_some, indexSetInsert, if_pos hmem]
    rw [mapInsert_eq_self name cs r.containers hlk]
  · intro hmem
    unfold ServiceRegistry.add_container ServiceRegistry.get_running_containers
    have hlk : mapLookup name r.containers = some cs := h
    rw [hlk]
    simp only [Option.getD_some, indexSetInsert, if_neg hmem]
    exact mapLookup_insert_self name (cs ++ [d]) r.containers

/-- First backend of the C9 witness/counterexample. -/
def c9D1 : StartedContainerDetails := ⟨⟨"dup"⟩, ⟨10, 0, 0, 6⟩⟩

/-- A backend with the SAME id as `c9D1` but another address. -/
def c9D2 : StartedContainerDetails := ⟨⟨"dup"⟩, ⟨10, 0, 0, 7⟩⟩

/-- Registry of the C9 witness: one service with the single backend `c9D1`. -/
def c9Registry : ServiceRegistry Service :=
  ServiceRegistry.add_container (ServiceRegistry.empty (δ := Service)) "svc" c9D1

/-- Witness for C9: re-adding the identical details is a no-op, adding a
not-yet-present details value is appended. -/
theorem c9_witness :
    (ServiceRegistry.add_container c9Registry "svc" c9D1 = c9Registry) ∧
    (ServiceRegistry.get_running_containers
      (ServiceRegistry.add_container c9Registry "svc" c9D2) "svc" =
      some [c9D1, c9D2]) :=
  ⟨(c9_add_container_dedup Service c9Registry "svc" [c9D1] c9D1
      (by decide)).1 (by decide),
   (c9_add_container_dedup Service c9Registry "svc" [c9D1] c9D2
      (by decide)).2 (by decide)⟩

/-- Claim C9, counterexample to the claim as stated: adding a backend whose
container id is already present but whose address differs does NOT leave the
set unchanged — it is appended, because equality is by (id, addr). -/
theorem c9_counterexample :
    ServiceRegistry.get_running_containers
      (ServiceRegistry.add_container c9Registry "svc" c9D2) "svc" =
      some [c9D1, c9D2] ∧
    c9D1.id = c9D2.id ∧ c9D1 ≠ c9D2 := by
  refine ⟨rfl, rfl, ?_⟩
  decide

end F2
